import Mathlib

/-!
Verification of the goreadability content-extraction library (readability.go).

The Go source is shallowly embedded: the DOM is a tree of `HNode`s, Go
`float64` values are modelled as `GoFloat := Option ℚ` where `none` stands
for NaN (float arithmetic on finite values is idealized as exact rational
arithmetic; the only float pathology relevant to the code, NaN from `0/0`
in `linkDensity`, is tracked by the `Option`), Go `int` is `Int`,
`len(string)` is the UTF-8 byte size, and Go maps with string keys are
association lists (insertion order preserved, which models the
insert-if-absent discipline of `getCandidates`).
-/

namespace Readability

/-- Go `len(s)`: the number of UTF-8 bytes of the string. -/
def goLen (s : String) : Nat := s.utf8ByteSize

/-- Substring test on character lists (used to model `regexp.FindString != ""`
for the keyword-alternation patterns, which contain only literal keywords). -/
def listContainsSub (pat l : List Char) : Bool :=
  match l with
  | [] => pat.isEmpty
  | _ :: rest => pat.isPrefixOf l || listContainsSub pat rest

/-- `containsSub s pat` is true iff `pat` occurs as a contiguous substring of `s`. -/
def containsSub (s pat : String) : Bool := listContainsSub pat.toList s.toList

/-- Go `strings.TrimSpace`: drop leading and trailing whitespace. -/
def trimSpace (s : String) : String :=
  ⟨((s.toList.dropWhile Char.isWhitespace).reverse.dropWhile
      Char.isWhitespace).reverse⟩

/-- Number of occurrences of character `c` in `s` (Go `strings.Count(s, ",")`
for a single-character separator). -/
def countChar (c : Char) (s : String) : Nat := s.toList.count c

/-- Go `strings.Split(s, sep)` for a one-character separator, on char lists:
the list of segments between occurrences of `sep`. -/
def splitSegments (sep : Char) : List Char → List (List Char)
  | [] => [[]]
  | c :: rest =>
    let tailSegs := splitSegments sep rest
    if c = sep then [] :: tailSegs
    else
      match tailSegs with
      | [] => [[c]]
      | seg :: segs => (c :: seg) :: segs

/-- A Go `float64`: `none` is NaN, `some q` a finite value (exact model). -/
abbrev GoFloat := Option ℚ

/-- Float addition; NaN absorbs. -/
def fadd : GoFloat → GoFloat → GoFloat
  | some a, some b => some (a + b)
  | _, _ => none

/-- Float multiplication; NaN absorbs (the code never multiplies NaN by 0
in a way that matters: any NaN operand yields NaN). -/
def fmul : GoFloat → GoFloat → GoFloat
  | some a, some b => some (a * b)
  | _, _ => none

/-- Go `math.Max`: NaN if either operand is NaN. -/
def fmax : GoFloat → GoFloat → GoFloat
  | some a, some b => some (max a b)
  | _, _ => none

/-- Float `<`: false when either side is NaN. -/
def fltB : GoFloat → GoFloat → Bool
  | some a, some b => a < b
  | _, _ => false

/-- Float `>=`: false when either side is NaN. -/
def fgeB : GoFloat → GoFloat → Bool
  | some a, some b => b ≤ a
  | _, _ => false

/-- Float `>`: false when either side is NaN. -/
def fgtB : GoFloat → GoFloat → Bool
  | some a, some b => b < a
  | _, _ => false

/-- Float `==`: false when either side is NaN. -/
def feqB : GoFloat → GoFloat → Bool
  | some a, some b => a = b
  | _, _ => false

/-- An HTML DOM node: a text node or an element with a tag name, an
attribute list and ordered children (models the parsed `goquery` tree). -/
inductive HNode where
  | text (s : String)
  | elem (tag : String) (attrs : List (String × String)) (children : List HNode)

/-- The tag name of a node (`goquery.NodeName`); text nodes are never
queried for it in the embedded code paths. -/
def tagName : HNode → String
  | .text _ => "#text"
  | .elem t _ _ => t

/-- First value of the named attribute, if present (`Selection.Attr`). -/
def attr (n : HNode) (key : String) : Option String :=
  match n with
  | .text _ => none
  | .elem _ attrs _ => (attrs.find? (fun p => p.1 == key)).map Prod.snd

/-- `Selection.AttrOr`: the attribute value or a default. -/
def attrOr (n : HNode) (key dflt : String) : String := (attr n key).getD dflt

mutual
/-- The visible inner text of a node (`Selection.Text()`): concatenation of
all descendant text nodes. -/
def textOf : HNode → String
  | .text s => s
  | .elem _ _ cs => textOfList cs

/-- Text of a list of nodes, in order. -/
def textOfList : List HNode → String
  | [] => ""
  | c :: cs => textOf c ++ textOfList cs
end

mutual
/-- Serialization of a node (models `html.Render` as used by
`goquery.Selection.Html`; attribute quoting/escaping details are immaterial,
only equality of equal subtrees is used). -/
def render : HNode → String
  | .text s => s
  | .elem tag attrs cs =>
    "<" ++ tag ++ renderAttrs attrs ++ ">" ++ renderList cs ++ "</" ++ tag ++ ">"

/-- Serialization of an attribute list. -/
def renderAttrs : List (String × String) → String
  | [] => ""
  | (k, v) :: rest => " " ++ k ++ "=\x22" ++ v ++ "\x22" ++ renderAttrs rest

/-- Serialization of a node list. -/
def renderList : List HNode → String
  | [] => ""
  | c :: cs => render c ++ renderList cs
end

/-- `mySelection.HTML()`: the inner markup of a node, used as the candidate
signature keying the candidate map. -/
def innerHTML : HNode → String
  | .text s => s
  | .elem _ _ cs => renderList cs

mutual
/-- All proper descendants of a node, in document (pre-)order
(`Selection.Find("*")` relative to the node). -/
def descendants : HNode → List HNode
  | .text _ => []
  | .elem _ _ cs => descendantsList cs

/-- The nodes of a forest and all their descendants, in document order. -/
def descendantsList : List HNode → List HNode
  | [] => []
  | c :: cs => c :: descendants c ++ descendantsList cs
end

/-- Descendant elements with the given tag (`Selection.Find(tag)`). -/
def findTag (t : String) (n : HNode) : List HNode :=
  (descendants n).filter (fun d => tagName d == t)

/-- The literal alternatives of the `Positive` pattern in `newPattern`. -/
def positiveKeywords : List String :=
  ["article", "body", "content", "entry", "hentry", "main", "page",
   "pagination", "post", "text", "blog", "story"]

/-- The literal alternatives of the `Negative` pattern in `newPattern`. -/
def negativeKeywords : List String :=
  ["combx", "comment", "com-", "contact", "foot", "footer", "footnote",
   "masthead", "media", "meta", "outbrain", "promo", "related", "scroll",
   "shoutbox", "sidebar", "sponsor", "shopping", "tags", "tool", "widget"]

/-- `re.FindString(s) != ""` for a case-insensitive alternation of literal
keywords: some keyword occurs in the lowercased string. -/
def matchesAny (kws : List String) (s : String) : Bool :=
  kws.any (fun k => containsSub s.toLower k)

/-- The extraction options (`Option` struct in the source; image fields
included for the image-selector claims). -/
structure OptionR where
  retryLength : Int
  minTextLength : Int
  removeUnlikelyCandidates : Bool
  weightClasses : Bool
  cleanConditionally : Bool
  removeEmptyNodes : Bool
  minImageWidth : Nat
  minImageHeight : Nat
  maxImageCount : Int
deriving DecidableEq, Repr

/-- `NewOption()`: the default option values. -/
def NewOption : OptionR :=
  { retryLength := 250
    minTextLength := 25
    removeUnlikelyCandidates := true
    weightClasses := true
    cleanConditionally := true
    removeEmptyNodes := true
    minImageWidth := 200
    minImageHeight := 100
    maxImageCount := 3 }

/-- `classWeight(s, opt)`: 0 when class weighting is disabled; otherwise the
`class` and `id` attributes each contribute −25 on a Negative match and +25
on a Positive match (nonempty attributes only). -/
def classWeight (s : HNode) (opt : OptionR) : ℚ :=
  if !opt.weightClasses then 0
  else
    let c := attrOr s "class" ""
    let wc : ℚ :=
      if c ≠ "" then
        (if matchesAny negativeKeywords c then (-25 : ℚ) else 0) +
        (if matchesAny positiveKeywords c then (25 : ℚ) else 0)
      else 0
    let i := attrOr s "id" ""
    let wi : ℚ :=
      if i ≠ "" then
        (if matchesAny negativeKeywords i then (-25 : ℚ) else 0) +
        (if matchesAny positiveKeywords i then (25 : ℚ) else 0)
      else 0
    wc + wi

/-- `linkDensity(s)`: total text length of descendant anchors divided by the
node's own text length. The Go code divides `float64`s without a zero guard,
so an empty-text node yields `0.0/0.0 = NaN`, modelled as `none`. -/
def linkDensity (s : HNode) : GoFloat :=
  let linkLen : Nat := goLen (String.join ((findTag "a" s).map textOf))
  let textLen : Nat := goLen (textOf s)
  if textLen = 0 then none else some ((linkLen : ℚ) / (textLen : ℚ))

/-- The `elemScores` map literal of the source. -/
def elemScores : List (String × ℚ) :=
  [("div", 5), ("blockquote", 3), ("form", -3), ("th", -5)]

/-- Go map indexing on `elemScores` (missing key gives the zero value). -/
def elemScoreLookup (t : String) : ℚ :=
  match elemScores.find? (fun p => p.1 == t) with
  | some p => p.2
  | none => 0

/-- `scoreNode(s, opt)`: class weight plus the structural tag bonus. -/
def scoreNode (s : HNode) (opt : OptionR) : ℚ :=
  classWeight s opt + elemScoreLookup (tagName s)

/-- A matched `p`/`td` node together with its parent and (optional)
grandparent, as visited by `doc.Find("p, td")` in `getCandidates`. -/
abbrev PdTriple := HNode × HNode × Option HNode

/-- The `p`/`td` elements of a forest in document order, paired with their
parent and grandparent (`parent` is the node owning the list; the document
root has no parent, so its direct children get no grandparent, mirroring the
`parent == nil` guard in `getCandidates`). -/
def pdTriplesList (parent : HNode) (gp : Option HNode) :
    List HNode → List PdTriple
  | [] => []
  | c :: cs =>
    (match c with
     | .text _ => []
     | .elem tag _ ccs =>
       (if tag == "p" || tag == "td" then [(c, parent, gp)] else []) ++
       pdTriplesList c (some parent) ccs) ++
    pdTriplesList parent gp cs

/-- The `p`/`td` scan of a whole document. -/
def pdTriples : HNode → List PdTriple
  | .text _ => []
  | .elem t a cs => pdTriplesList (.elem t a cs) none cs

/-- A candidate before link-density rescaling (`candidate` with a finite
score; scores are finite until the rescale phase). -/
structure CandidateR where
  node : HNode
  score : ℚ

/-- A candidate after link-density rescaling (score may be NaN). -/
structure CandidateF where
  node : HNode
  score : GoFloat

/-- Lookup in a Go map modelled as an association list. -/
def cmapLookup {α : Type} (m : List (String × α)) (k : String) : Option α :=
  match m with
  | [] => none
  | (k', v) :: rest => if k' = k then some v else cmapLookup rest k

/-- The `if _, ok := cMap[key]; !ok { cMap[key] = v }` idiom of
`getCandidates`: insert only when the key is absent. -/
def cmapInsertIfAbsent {α : Type} (m : List (String × α)) (k : String)
    (v : α) : List (String × α) :=
  match cmapLookup m k with
  | some _ => m
  | none => m ++ [(k, v)]

/-- The per-text score added in `getCandidates`:
`1 + len(strings.Split(innerText, ",")) + min(len(innerText)/100, 3)`. -/
def candidateIncrement (innerText : String) : ℚ :=
  1 + ((splitSegments ',' innerText.toList).length : ℚ) +
    min ((goLen innerText : ℚ) / 100) 3

/-- One iteration of the `p, td` loop in `getCandidates`: skip short texts,
then write the parent entry (first writer only) and, when a grandparent
exists, its entry at half the increment (first writer only). -/
def getCandidatesStep (opt : OptionR) (m : List (String × CandidateR)) :
    PdTriple → List (String × CandidateR)
  | (s, parent, gp) =>
    let innerText := textOf s
    if (goLen innerText : Int) < opt.minTextLength then m
    else
      let score := candidateIncrement innerText
      let m1 := cmapInsertIfAbsent m (innerHTML parent)
        ⟨parent, scoreNode parent opt + score⟩
      match gp with
      | none => m1
      | some g => cmapInsertIfAbsent m1 (innerHTML g)
          ⟨g, scoreNode g opt + score / 2⟩

/-- The candidate map of `getCandidates` before link-density rescaling. -/
def rawCandidates (doc : HNode) (opt : OptionR) : List (String × CandidateR) :=
  (pdTriples doc).foldl (getCandidatesStep opt) []

/-- The final rescale of `getCandidates`:
`Score * (1 - linkDensity(node))` (NaN-propagating). -/
def scaleCandidate (c : CandidateR) : CandidateF :=
  ⟨c.node, (linkDensity c.node).map (fun d => c.score * (1 - d))⟩

/-- The candidate map returned by `getCandidates`. -/
def getCandidatesMap (doc : HNode) (opt : OptionR) : List (String × CandidateF) :=
  (rawCandidates doc opt).map (fun p => (p.1, scaleCandidate p.2))

/-- Spec-side structural bonus table of `scoreNode` (claim C1's wording). -/
def structuralBonus (t : String) : ℚ :=
  if t = "div" then 5
  else if t = "blockquote" then 3
  else if t = "form" then -3
  else if t = "th" then -5
  else 0

/-- Spec-side first-writer semantics: the entry a signature `k` receives is
determined by the first qualifying `p`/`td` whose parent (checked first) or
grandparent renders to `k`; later qualifying siblings contribute nothing. -/
def firstWriterScore (opt : OptionR) (k : String) :
    List PdTriple → Option CandidateR
  | [] => none
  | (s, parent, gp) :: ts =>
    if (goLen (textOf s) : Int) < opt.minTextLength then firstWriterScore opt k ts
    else if innerHTML parent = k then
      some ⟨parent, scoreNode parent opt + candidateIncrement (textOf s)⟩
    else
      match gp with
      | some g =>
        if innerHTML g = k then
          some ⟨g, scoreNode g opt + candidateIncrement (textOf s) / 2⟩
        else firstWriterScore opt k ts
      | none => firstWriterScore opt k ts

/-- The document of the library's `TestLinkDensity` test:
`<div>Speak blah blah!<a>123</a><a>4</a></div>`. -/
def tlNode : HNode :=
  .elem "div" []
    [.text "Speak blah blah!", .elem "a" [] [.text "123"], .elem "a" [] [.text "4"]]

mutual
/-- Count of `img` elements in a subtree that lie under some `noscript`
element at or below the start of the walk (flag = inside a `noscript`). -/
def imgsUnderNoscript (inNoscript : Bool) : HNode → Nat
  | .text _ => 0
  | .elem tag _ cs =>
    (if inNoscript && tag == "img" then 1 else 0) +
    imgsUnderNoscriptList (inNoscript || tag == "noscript") cs

/-- `imgsUnderNoscript` summed over a forest. -/
def imgsUnderNoscriptList (inNoscript : Bool) : List HNode → Nat
  | [] => 0
  | c :: cs => imgsUnderNoscript inNoscript c + imgsUnderNoscriptList inNoscript cs
end

/-- `s.Find("noscript").Find("img").Length()`: the number of distinct `img`
descendants of `s` that have a `noscript` ancestor strictly inside `s`. -/
def noscriptImgCount (s : HNode) : Nat :=
  match s with
  | .text _ => 0
  | .elem _ _ cs => imgsUnderNoscriptList false cs

/-- Pointwise update of a Go `map[string]int` (reads of missing keys give
the zero value, so the map is modelled as a total function). -/
def fupdate (f : String → Int) (k : String) (v : Int) : String → Int :=
  fun k' => if k' = k then v else f k'

/-- The three statements executed for one `tag` in the counting loop of
`cleanConditionally`: set `counts[tag]`, subtract 100 from `counts["li"]`,
subtract the `noscript`-nested images from `counts["img"]`. -/
def updateCounts (s : HNode) (counts : String → Int) (tag : String) : String → Int :=
  let c1 := fupdate counts tag ((findTag tag s).length : Int)
  let c2 := fupdate c1 "li" (c1 "li" - 100)
  fupdate c2 "img" (c2 "img" - (noscriptImgCount s : Int))

/-- `conditionalCleanReason`: the first matching removal reason, or `""`. -/
def conditionalCleanReason (tn : String) (counts : String → Int) (cl : Int)
    (opt : OptionR) (weight : ℚ) (ld : GoFloat) : String :=
  if counts "img" > counts "p" ∧ counts "img" > 1 then
    "too many images"
  else if counts "li" > counts "p" ∧ tn ≠ "ul" ∧ tn ≠ "ok" then
    "more li than p"
  else if counts "input" * 3 > counts "p" then
    "p less than 3 inputs"
  else if cl < opt.minTextLength ∧ counts "img" ≠ 1 then
    "too short content length without a single image"
  else if (weight < 25 ∧ fgtB ld (some (1/5)) = true) ∨
      (25 ≤ weight ∧ fgtB ld (some (1/2)) = true) then
    "too many links for its weight"
  else if (counts "embed" = 1 ∧ cl < 75) ∨ counts "embed" > 1 then
    "embeds with too short content length, or too many embeds"
  else ""

/-- The inner `for _, tag := range` loop of `cleanConditionally`: the counts
map threads through the iterations, and the element is removed as soon as
any iteration produces a nonempty reason. -/
def cleanTagsLoop (s : HNode) (opt : OptionR) (weight : ℚ) : Bool :=
  (List.foldl
    (fun (acc : (String → Int) × Bool) tag =>
      let counts := updateCounts s acc.1 tag
      let cl := (goLen (trimSpace (textOf s)) : Int)
      let ld := linkDensity s
      let reason := conditionalCleanReason (tagName s) counts cl opt weight ld
      (counts, acc.2 || !(reason == "")))
    ((fun _ => 0), false)
    ["p", "img", "li", "a", "embed", "input"]).2

/-- Whether `cleanConditionally` removes the element `s` whose candidate
score (map lookup by signature, missing key giving the 0.0 zero value) is
`score`. -/
def conditionallyRemoved (s : HNode) (opt : OptionR) (score : GoFloat) : Bool :=
  if !opt.cleanConditionally then false
  else
    let weight := classWeight s opt
    if fltB (fadd (some weight) score) (some 0) then true
    else if (countChar ',' (textOf s) : Int) < 11 then cleanTagsLoop s opt weight
    else false

/-- Claim C4's removal predicate, as stated: the comma guard protects every
clause (including `weight+score < 0`), and the short-text clause requires
`img_count ≠ 1` with `img_count = (img descendants) − (noscript-nested img
descendants)`. -/
def claimedConditionalRemoval (s : HNode) (opt : OptionR) (score : GoFloat) : Bool :=
  let weight := classWeight s opt
  let p := ((findTag "p" s).length : Int)
  let img := ((findTag "img" s).length : Int) - (noscriptImgCount s : Int)
  let li := ((findTag "li" s).length : Int) - 100
  let inp := ((findTag "input" s).length : Int)
  let emb := ((findTag "embed" s).length : Int)
  let cl := (goLen (trimSpace (textOf s)) : Int)
  let ld := linkDensity s
  if (countChar ',' (textOf s) : Int) > 10 then false
  else
    fltB (fadd (some weight) score) (some 0)
    || (decide (img > p) && decide (img > 1))
    || (decide (li > p) && !(tagName s == "ul"))
    || decide (inp * 3 > p)
    || (decide (cl < opt.minTextLength) && !(decide (img = 1)))
    || ((decide (weight < 25) && fgtB ld (some (1/5))) ||
        (decide (25 ≤ weight) && fgtB ld (some (1/2))))
    || ((decide (emb = 1) && decide (cl < 75)) || decide (emb > 1))

/-- The C4 counterexample element: `<div>hi<img></div>` (one image, text
shorter than the default `MinTextLength`). -/
def c4Node : HNode := .elem "div" [] [.text "hi", .elem "img" [] []]

/-- Score looked up in the candidate map by signature; a missing key gives
the zero-value candidate whose score is `0.0` (`candidates.Map[sel.HTML()]`
in Go). -/
def candidateScoreAt (m : List (String × CandidateF)) (k : String) : GoFloat :=
  match cmapLookup m k with
  | some c => c.score
  | none => some 0

/-- `siblingScoreThreshold := math.Max(10.0, bestCandidate.Score*0.2)`. -/
def siblingScoreThreshold (bestScore : GoFloat) : GoFloat :=
  fmax (some 10) (fmul bestScore (some (1/5)))

/-- Whether the regexp `\.( |$)` finds a match in `t`: `t` contains a
period followed by a space, or ends with a period. -/
def sentencePeriodMatch (t : String) : Bool :=
  containsSub t ". " || (t.toList.getLast? == some '.')

/-- The sibling-append decision of `getArticle`: append when the sibling's
signature is the best candidate's, or its looked-up score reaches the
threshold, or it is a `p` that satisfies the long-text/low-density or the
short-text/zero-density/sentence-period test. -/
def getArticleAppend (s : HNode) (bestHTML : String)
    (m : List (String × CandidateF)) (thr : GoFloat) : Bool :=
  let a1 := innerHTML s == bestHTML
  let a2 := fgeB (candidateScoreAt m (innerHTML s)) thr
  let a3 :=
    if tagName s == "p" then
      let ld := linkDensity s
      let text := textOf s
      let length := goLen text
      if length > 80 && fltB ld (some (1/4)) then true
      else if length < 80 && feqB ld (some 0) && sentencePeriodMatch text then true
      else false
    else false
  a1 || a2 || a3

/-- Claim C5's append predicate, as stated: the short-text clause is not
restricted to `p` elements. -/
def claimedGetArticleAppend (s : HNode) (bestHTML : String)
    (m : List (String × CandidateF)) (thr : GoFloat) : Bool :=
  (innerHTML s == bestHTML)
  || fgeB (candidateScoreAt m (innerHTML s)) thr
  || (tagName s == "p" && decide (goLen (textOf s) > 80) &&
      fltB (linkDensity s) (some (1/4)))
  || (decide (goLen (textOf s) < 80) && feqB (linkDensity s) (some 0) &&
      sentencePeriodMatch (textOf s))

/-- The C5 counterexample sibling: `<div>Hi.</div>` (not a `p`, short text
ending with a period, zero link density). -/
def c5Node : HNode := .elem "div" [] [.text "Hi."]

/-- `fastimage.ImageSize`: `uint32` dimensions, modelled as their values. -/
structure ImageSize where
  width : Nat
  height : Nat
deriving DecidableEq, Repr

/-- The `Image` result struct; a nil `Size` pointer is `none`. -/
structure Image where
  url : String
  size : Option ImageSize
deriving DecidableEq, Repr

/-- Go `uint32(x)` for `x : int`: reduction modulo `2^32` (so a negative
declared dimension wraps to a large unsigned value). -/
def uint32Of (x : Int) : Nat := (x % (2 ^ 32 : Int)).toNat

/-- `checkImageSize`: when both declared attributes are nonzero they are
used directly (no probe); otherwise the probe result is consulted —
`Except.error` is a probe error (`&Image{}` with nil size), `Except.ok none`
a probe that succeeded without a size (the declared attributes are kept),
and `Except.ok (some sz)` a resolved size. -/
def checkImageSize (src : String) (widthFromAttr heightFromAttr : Int)
    (probe : Except Unit (Option ImageSize)) : Image :=
  if widthFromAttr = 0 ∨ heightFromAttr = 0 then
    match probe with
    | .error _ => { url := "", size := none }
    | .ok osize =>
      match osize with
      | some sz =>
        { url := src,
          size := some ⟨uint32Of (sz.width : Int), uint32Of (sz.height : Int)⟩ }
      | none =>
        { url := src,
          size := some ⟨uint32Of widthFromAttr, uint32Of heightFromAttr⟩ }
  else
    { url := src, size := some ⟨uint32Of widthFromAttr, uint32Of heightFromAttr⟩ }

/-- The acceptance test of the collector loop in `images`: non-nil size
with both dimensions at least the configured minimums. -/
def acceptsImage (opt : OptionR) (img : Image) : Bool :=
  match img.size with
  | none => false
  | some sz =>
    decide (opt.minImageWidth ≤ sz.width) && decide (opt.minImageHeight ≤ sz.height)

/-- The collector loop of `images`: `results` is the sequence of probe
results received from the channel before the timeout, in arrival order;
an accepted result is appended, and the list is returned as soon as its
length reaches `MaxImageCount`. -/
def collectImages (opt : OptionR) : List Image → List Image → List Image
  | [], acc => acc
  | r :: rest, acc =>
    let acc' := if acceptsImage opt r then acc ++ [r] else acc
    if (acc'.length : Int) ≥ opt.maxImageCount then acc'
    else collectImages opt rest acc'

/-- Options of the C6 counterexample: default values except for a zero
minimum height (and a positive minimum width). -/
def c6Opt : OptionR := { NewOption with minImageWidth := 1, minImageHeight := 0 }

/-- Number of relaxation options still enabled: the termination measure of
the retry recursion in `description`. -/
def enabledCount (opt : OptionR) : Nat :=
  (if opt.removeUnlikelyCandidates then 1 else 0) +
  (if opt.weightClasses then 1 else 0) +
  (if opt.cleanConditionally then 1 else 0)

/-- The retry controller of `description`. `extract` abstracts one full
pass (`prepareCandidates` + `getArticle` + `sanitize` and the plain-text
post-processing) over the fixed document; `none` is a pass error
(`prepareCandidates`/`getArticle` failure), on which `description` returns
`""` without retrying. A successful pass shorter than `RetryLength`
disables, in order, `RemoveUnlikelyCandidates`, `WeightClasses`,
`CleanConditionally`; with all three disabled the result is accepted. -/
def description (extract : OptionR → Option String) (opt : OptionR) : String :=
  match extract opt with
  | none => ""
  | some cleaned =>
    if (goLen cleaned : Int) < opt.retryLength then
      if opt.removeUnlikelyCandidates then
        description extract { opt with removeUnlikelyCandidates := false }
      else if opt.weightClasses then
        description extract { opt with weightClasses := false }
      else if opt.cleanConditionally then
        description extract { opt with cleanConditionally := false }
      else cleaned
    else cleaned
termination_by enabledCount opt
decreasing_by all_goals simp_all [enabledCount]

/-- Number of passes (`extract` invocations) performed by `description`. -/
def descriptionPassCount (extract : OptionR → Option String) (opt : OptionR) : Nat :=
  match extract opt with
  | none => 1
  | some cleaned =>
    if (goLen cleaned : Int) < opt.retryLength then
      if opt.removeUnlikelyCandidates then
        1 + descriptionPassCount extract { opt with removeUnlikelyCandidates := false }
      else if opt.weightClasses then
        1 + descriptionPassCount extract { opt with weightClasses := false }
      else if opt.cleanConditionally then
        1 + descriptionPassCount extract { opt with cleanConditionally := false }
      else 1
    else 1
termination_by enabledCount opt
decreasing_by all_goals simp_all [enabledCount]

/-- The option configurations visited by `description`, in order. -/
def descriptionConfigs (extract : OptionR → Option String) (opt : OptionR) :
    List OptionR :=
  match extract opt with
  | none => [opt]
  | some cleaned =>
    if (goLen cleaned : Int) < opt.retryLength then
      if opt.removeUnlikelyCandidates then
        opt :: descriptionConfigs extract { opt with removeUnlikelyCandidates := false }
      else if opt.weightClasses then
        opt :: descriptionConfigs extract { opt with weightClasses := false }
      else if opt.cleanConditionally then
        opt :: descriptionConfigs extract { opt with cleanConditionally := false }
      else [opt]
    else [opt]
termination_by enabledCount opt
decreasing_by all_goals simp_all [enabledCount]

/-- Amended removal predicate for C4, reflecting the code: `weight+score<0`
removes regardless of commas; the remaining clauses run under the comma
guard, and because the counting loop re-evaluates the reason with the
partially-built counts map, the short-text clause fires for any image count
(some iteration always sees `counts["img"] ≠ 1`), the `li` clause
effectively uses `li_count − 100`, and the image clause `img_count −
noscript_imgs`. -/
def amendedConditionalRemoval (s : HNode) (opt : OptionR) (score : GoFloat) : Bool :=
  if !opt.cleanConditionally then false
  else
    let weight := classWeight s opt
    let p := ((findTag "p" s).length : Int)
    let img := ((findTag "img" s).length : Int) - (noscriptImgCount s : Int)
    let li := ((findTag "li" s).length : Int) - 100
    let inp := ((findTag "input" s).length : Int)
    let emb := ((findTag "embed" s).length : Int)
    let cl := (goLen (trimSpace (textOf s)) : Int)
    let ld := linkDensity s
    fltB (fadd (some weight) score) (some 0)
    || (decide ((countChar ',' (textOf s) : Int) < 11)
        && ((decide (img > p) && decide (img > 1))
          || (decide (li > p) && !(tagName s == "ul") && !(tagName s == "ok"))
          || decide (inp * 3 > p)
          || decide (cl < opt.minTextLength)
          || ((decide (weight < 25) && fgtB ld (some (1/5))) ||
              (decide (25 ≤ weight) && fgtB ld (some (1/2))))
          || ((decide (emb = 1) && decide (cl < 75)) || decide (emb > 1))))

theorem cmapLookup_append_single {α : Type} (m : List (String × α)) (k k' : String)
    (v : α) :
    cmapLookup (m ++ [(k, v)]) k' =
      match cmapLookup m k' with
      | some w => some w
      | none => if k = k' then some v else none := by
  induction m with
  | nil => simp [cmapLookup]
  | cons p rest ih =>
    obtain ⟨k₀, v₀⟩ := p
    by_cases h : k₀ = k' <;> simp [cmapLookup, h, ih]

theorem cmapLookup_insertIfAbsent {α : Type} (m : List (String × α))
    (k k' : String) (v : α) :
    cmapLookup (cmapInsertIfAbsent m k v) k' =
      if k = k' then
        match cmapLookup m k with
        | some w => some w
        | none => some v
      else cmapLookup m k' := by
  unfold cmapInsertIfAbsent
  cases h : cmapLookup m k with
  | some w =>
    by_cases hk : k = k'
    · subst hk; simp [h]
    · simp [hk]
  | none =>
    rw [cmapLookup_append_single]
    by_cases hk : k = k'
    · subst hk; simp [h]
    · cases h' : cmapLookup m k' <;> simp [hk, h']

theorem foldl_getCandidatesStep_lookup (opt : OptionR) (k : String) :
    ∀ (ts : List PdTriple) (m : List (String × CandidateR)),
      cmapLookup (ts.foldl (getCandidatesStep opt) m) k =
        match cmapLookup m k with
        | some v => some v
        | none => firstWriterScore opt k ts := by
  intro ts
  induction ts with
  | nil =>
    intro m
    cases h : cmapLookup m k <;> simp [firstWriterScore, h]
  | cons t ts ih =>
    intro m
    obtain ⟨s, parent, gp⟩ := t
    rw [List.foldl_cons, ih]
    by_cases hq : (goLen (textOf s) : Int) < opt.minTextLength
    · simp [getCandidatesStep, hq, firstWriterScore]
    · cases gp with
      | none =>
        simp only [getCandidatesStep, firstWriterScore]
        by_cases hp : innerHTML parent = k <;>
          cases h : cmapLookup m k <;>
            simp [cmapLookup_insertIfAbsent, h, hp, hq]
      | some g =>
        simp only [getCandidatesStep, firstWriterScore]
        by_cases hp : innerHTML parent = k <;>
          by_cases hg : innerHTML g = k <;>
            cases h : cmapLookup m k <;>
              simp [cmapLookup_insertIfAbsent, h, hp, hg, hq]

theorem splitSegments_length (sep : Char) (l : List Char) :
    (splitSegments sep l).length = l.count sep + 1 := by
  induction l with
  | nil => simp [splitSegments]
  | cons c rest ih =>
    by_cases h : c = sep
    · simp [splitSegments, h, ih, List.count_cons]
    · have hne : (splitSegments sep rest).length ≠ 0 := by
        rw [ih]; omega
      simp only [splitSegments, if_neg h]
      cases hs : splitSegments sep rest with
      | nil => rw [hs] at hne; simp at hne
      | cons seg segs =>
        rw [hs] at ih
        simp only [List.length_cons] at ih ⊢
        rw [List.count_cons]
        simp [h, ih]

/-- C1: for every `p`/`td` whose text length is at least `MinTextLength` the
scorer computes the increment `1 + (number of comma-separated segments) +
min(textLength/100, 3)`; the entry of a signature is written exactly by the
first qualifying node whose parent (at `scoreNode(parent) + increment`) or
grandparent (at `scoreNode(grandparent) + increment/2`, when a grandparent
exists) bears that signature, later qualifying siblings adding nothing;
afterwards every entry's score is multiplied by `1 − linkDensity(node)`;
and `scoreNode` is the class weight plus the structural bonus table
(div +5, blockquote +3, form −3, th −5, else 0). -/
theorem candidateScorer_firstWriter_c1 (doc : HNode) (opt : OptionR) (k : String) :
    cmapLookup (rawCandidates doc opt) k = firstWriterScore opt k (pdTriples doc)
    ∧ getCandidatesMap doc opt = (rawCandidates doc opt).map
        (fun p => (p.1, ⟨p.2.node,
          (linkDensity p.2.node).map (fun d => p.2.score * (1 - d))⟩))
    ∧ (∀ n : HNode, scoreNode n opt = classWeight n opt + structuralBonus (tagName n))
    ∧ (∀ t : String, candidateIncrement t =
        1 + ((countChar ',' t : ℚ) + 1) + min ((goLen t : ℚ) / 100) 3) := by
  refine ⟨?_, ?_, ?_, ?_⟩
  · rw [rawCandidates, foldl_getCandidatesStep_lookup]
    simp [cmapLookup]
  · rfl
  · intro n
    by_cases h1 : tagName n = "div"
    · simp [scoreNode, elemScoreLookup, elemScores, structuralBonus, List.find?, h1]
    · by_cases h2 : tagName n = "blockquote"
      · simp [scoreNode, elemScoreLookup, elemScores, structuralBonus, List.find?,
          h1, h2]
      · by_cases h3 : tagName n = "form"
        · simp [scoreNode, elemScoreLookup, elemScores, structuralBonus, List.find?,
            h1, h2, h3]
        · by_cases h4 : tagName n = "th"
          · simp [scoreNode, elemScoreLookup, elemScores, structuralBonus,
              List.find?, h1, h2, h3, h4]
          · have e1 : ("div" == tagName n) = false := by
              rw [beq_eq_false_iff_ne]; exact fun hh => h1 hh.symm
            have e2 : ("blockquote" == tagName n) = false := by
              rw [beq_eq_false_iff_ne]; exact fun hh => h2 hh.symm
            have e3 : ("form" == tagName n) = false := by
              rw [beq_eq_false_iff_ne]; exact fun hh => h3 hh.symm
            have e4 : ("th" == tagName n) = false := by
              rw [beq_eq_false_iff_ne]; exact fun hh => h4 hh.symm
            simp [scoreNode, elemScoreLookup, elemScores, structuralBonus,
              List.find?, h1, h2, h3, h4, e1, e2, e3, e4]
  · intro t
    rw [candidateIncrement, splitSegments_length, countChar]
    push_cast
    ring

/-- C3 counterexample: an element with no text has `linkDensity` equal to
`0.0/0.0`, i.e. NaN (`none` in the float model), not the real number 0 the
claim requires. -/
theorem linkDensity_empty_counterexample_c3 :
    goLen (textOf (HNode.elem "div" [] [])) = 0
    ∧ linkDensity (HNode.elem "div" [] []) = none
    ∧ linkDensity (HNode.elem "div" [] []) ≠ some 0 := by
  refine ⟨rfl, rfl, ?_⟩
  intro h
  exact Option.noConfusion h

/-- C3 amended: `linkDensity` divides without a zero guard, so a node whose
visible text length is 0 yields NaN (`none`), and only for nonzero text
length does it equal (total descendant-anchor text length) / (own visible
text length). -/
theorem linkDensity_amended_c3 (n : HNode) :
    (goLen (textOf n) = 0 → linkDensity n = none)
    ∧ (goLen (textOf n) ≠ 0 → linkDensity n =
        some ((goLen (String.join ((findTag "a" n).map textOf)) : ℚ) /
          (goLen (textOf n) : ℚ))) := by
  constructor
  · intro h
    simp [linkDensity, h]
  · intro h
    simp [linkDensity, h]

/-- Witness for C3's amended theorem: the link density of
`<div>Speak blah blah!<a>123</a><a>4</a></div>` is 4/20 = 1/5. -/
theorem linkDensity_amended_c3_witness :
    goLen (textOf tlNode) ≠ 0 ∧ linkDensity tlNode = some (1/5) := by
  refine ⟨by decide, ?_⟩
  rw [(linkDensity_amended_c3 tlNode).2 (by decide)]
  have h1 : goLen (String.join ((findTag "a" tlNode).map textOf)) = 4 := by decide
  have h2 : goLen (textOf tlNode) = 20 := by decide
  rw [h1, h2]
  norm_num

theorem conditionalCleanReason_ne_empty_iff (tn : String) (counts : String → Int)
    (cl : Int) (opt : OptionR) (weight : ℚ) (ld : GoFloat) :
    (conditionalCleanReason tn counts cl opt weight ld ≠ "") ↔
      ((counts "img" > counts "p" ∧ counts "img" > 1)
      ∨ (counts "li" > counts "p" ∧ tn ≠ "ul" ∧ tn ≠ "ok")
      ∨ (counts "input" * 3 > counts "p")
      ∨ (cl < opt.minTextLength ∧ counts "img" ≠ 1)
      ∨ ((weight < 25 ∧ fgtB ld (some (1/5)) = true) ∨
          (25 ≤ weight ∧ fgtB ld (some (1/2)) = true))
      ∨ ((counts "embed" = 1 ∧ cl < 75) ∨ counts "embed" > 1)) := by
  unfold conditionalCleanReason
  split_ifs with h1 h2 h3 h4 h5 h6 <;> simp_all

set_option maxHeartbeats 2000000 in
theorem cleanTagsLoop_iff (s : HNode) (opt : OptionR) (weight : ℚ) :
    cleanTagsLoop s opt weight = true ↔
      (let p := ((findTag "p" s).length : Int)
       let img := ((findTag "img" s).length : Int) - (noscriptImgCount s : Int)
       let li := ((findTag "li" s).length : Int) - 100
       let inp := ((findTag "input" s).length : Int)
       let emb := ((findTag "embed" s).length : Int)
       let cl := (goLen (trimSpace (textOf s)) : Int)
       let ld := linkDensity s
       (img > p ∧ img > 1)
       ∨ (li > p ∧ tagName s ≠ "ul" ∧ tagName s ≠ "ok")
       ∨ (inp * 3 > p)
       ∨ (cl < opt.minTextLength)
       ∨ ((weight < 25 ∧ fgtB ld (some (1/5)) = true) ∨
           (25 ≤ weight ∧ fgtB ld (some (1/2)) = true))
       ∨ ((emb = 1 ∧ cl < 75) ∨ emb > 1)) := by
  simp [cleanTagsLoop, Bool.or_eq_true,
    Bool.not_eq_eq_eq_not, Bool.not_true, beq_eq_false_iff_ne,
    conditionalCleanReason_ne_empty_iff, updateCounts, fupdate]
  by_cases hW1 : weight < 25 ∧ fgtB (linkDensity s) (some ((5:ℚ)⁻¹)) = true <;>
  by_cases hW2 : 25 ≤ weight ∧ fgtB (linkDensity s) (some ((2:ℚ)⁻¹)) = true <;>
  by_cases hul : tagName s = "ul" <;>
  by_cases hok : tagName s = "ok" <;>
  simp [hW1, hW2, hul, hok] <;> omega

set_option maxHeartbeats 1000000 in
/-- C4 amended: the code removes when `weight+score < 0` regardless of the
comma count; under the comma guard the remaining clauses are as claimed
except that the short-text clause fires for every image count, because the
counting loop re-evaluates the removal reason at every tag with a
partially-built counts map, and some iteration always sees an image count
different from 1. -/
theorem conditionallyRemoved_amended_c4 (s : HNode) (opt : OptionR) (score : GoFloat) :
    conditionallyRemoved s opt score = amendedConditionalRemoval s opt score := by
  unfold conditionallyRemoved amendedConditionalRemoval
  by_cases hcc : opt.cleanConditionally
  · by_cases hws : fltB (fadd (some (classWeight s opt)) score) (some 0) = true
    · simp [hcc, hws]
    · have hws' : fltB (fadd (some (classWeight s opt)) score) (some 0) = false :=
        Bool.not_eq_true _ |>.mp hws
      by_cases hcm : (countChar ',' (textOf s) : Int) < 11
      · simp only [hcc, Bool.not_true, Bool.false_eq_true, if_false, hws', hcm,
          if_true, Bool.false_or]
        rw [Bool.eq_iff_iff, cleanTagsLoop_iff]
        simp [hcm]
        tauto
      · simp [hcc, hws', hcm]
  · simp [hcc]

/-- C4 counterexample: for `<div>hi<img></div>` with default options and
candidate score 0, the code removes the element (short text, image count 1)
while the claimed predicate keeps it (its short-text clause requires
`img_count ≠ 1`). -/
theorem conditionalClean_counterexample_c4 :
    conditionallyRemoved c4Node NewOption (some 0) = true
    ∧ claimedConditionalRemoval c4Node NewOption (some 0) = false := by
  have hw : classWeight c4Node NewOption = 0 := by
    norm_num [classWeight, attrOr, attr, c4Node, NewOption]
  have hld : linkDensity c4Node = some 0 := by
    have h0 : goLen (String.join ((findTag "a" c4Node).map textOf)) = 0 := by decide
    have h2 : goLen (textOf c4Node) = 2 := by decide
    rw [linkDensity]
    simp only [h0, h2]
    norm_num
  have hl : cleanTagsLoop c4Node NewOption 0 = true := by
    rw [cleanTagsLoop_iff]
    exact Or.inr (Or.inr (Or.inr (Or.inl (by decide))))
  constructor
  · have hwf : fltB (fadd (some (classWeight c4Node NewOption)) (some 0)) (some 0) = false := by
      rw [hw]
      norm_num [fltB, fadd]
    have hcm : ((countChar ',' (textOf c4Node) : Int)) < 11 := by decide
    have hon : NewOption.cleanConditionally = true := rfl
    simp [conditionallyRemoved, hon, hwf, hcm, hw, hl]
  · have hp : (findTag "p" c4Node).length = 0 := by decide
    have himg : (findTag "img" c4Node).length = 1 := by decide
    have hns : noscriptImgCount c4Node = 0 := by decide
    have hli : (findTag "li" c4Node).length = 0 := by decide
    have hinp : (findTag "input" c4Node).length = 0 := by decide
    have hemb : (findTag "embed" c4Node).length = 0 := by decide
    have hcl : goLen (trimSpace (textOf c4Node)) = 2 := by decide
    have hcc : countChar ',' (textOf c4Node) = 0 := by decide
    have htag : tagName c4Node = "div" := rfl
    simp only [claimedConditionalRemoval, hp, himg, hns, hli, hinp, hemb, hcl, hcc,
      htag, hw, hld]
    norm_num [fltB, fadd, fgtB]

/-- C5 amended: a sibling is appended exactly when it is the best candidate
(by signature), or its looked-up candidate score reaches the threshold, or
it is a `p` element satisfying either the long-text/low-density test or the
short-text, zero-density, sentence-period test — the last clause, like the
third, applies only to `p` elements; and the threshold on a finite best
score is `max(10, bestScore * 0.2)`. -/
theorem getArticleAppend_amended_c5 (s : HNode) (bestHTML : String)
    (m : List (String × CandidateF)) (thr : GoFloat) :
    getArticleAppend s bestHTML m thr =
      ((innerHTML s == bestHTML)
       || fgeB (candidateScoreAt m (innerHTML s)) thr
       || (tagName s == "p" &&
           ((decide (goLen (textOf s) > 80) && fltB (linkDensity s) (some (1/4)))
            || (decide (goLen (textOf s) < 80) && feqB (linkDensity s) (some 0) &&
                sentencePeriodMatch (textOf s)))))
    ∧ (∀ q : ℚ, siblingScoreThreshold (some q) = some (max 10 (q * (1/5)))) := by
  constructor
  · unfold getArticleAppend
    cases htag : (tagName s == "p")
    · simp [htag]
    · rcases Bool.eq_false_or_eq_true (fltB (linkDensity s) (some (1/4))) with h2 | h2 <;>
      rcases Bool.eq_false_or_eq_true (feqB (linkDensity s) (some 0)) with h3 | h3 <;>
      rcases Bool.eq_false_or_eq_true (sentencePeriodMatch (textOf s)) with h4 | h4 <;>
      by_cases h5 : goLen (textOf s) > 80 <;>
      by_cases h6 : goLen (textOf s) < 80 <;>
      simp [htag, h2, h3, h4, h5, h6]
  · intro q
    simp [siblingScoreThreshold, fmax, fmul]

/-- C5 counterexample: the non-`p` sibling `<div>Hi.</div>` (short text,
zero link density, period-terminated) is not appended by the code, while
the claimed predicate appends it. -/
theorem getArticle_counterexample_c5 :
    getArticleAppend c5Node "best" [] (some 10) = false
    ∧ claimedGetArticleAppend c5Node "best" [] (some 10) = true := by
  have h1 : (innerHTML c5Node == "best") = false := by decide
  have h2 : fgeB (candidateScoreAt [] (innerHTML c5Node)) (some 10) = false := by
    simp only [candidateScoreAt, cmapLookup, fgeB]
    norm_num
  have h3 : (tagName c5Node == "p") = false := by decide
  have h4 : goLen (textOf c5Node) < 80 := by decide
  have h5 : feqB (linkDensity c5Node) (some 0) = true := by
    have e0 : goLen (String.join ((findTag "a" c5Node).map textOf)) = 0 := by decide
    have e1 : goLen (textOf c5Node) = 3 := by decide
    rw [linkDensity]
    simp only [e0, e1]
    norm_num [feqB]
  have h6 : sentencePeriodMatch (textOf c5Node) = true := by decide
  constructor
  · simp [getArticleAppend, h1, h2, h3]
  · simp [claimedGetArticleAppend, h1, h2, h3, h4, h5, h6]


theorem enabledCount_le_three (opt : OptionR) : enabledCount opt ≤ 3 := by
  unfold enabledCount
  split_ifs <;> omega

theorem descriptionPassCount_le (extract : OptionR → Option String) (opt : OptionR) :
    descriptionPassCount extract opt ≤ enabledCount opt + 1 := by
  generalize hn : enabledCount opt = n
  induction n using Nat.strong_induction_on generalizing opt with
  | _ n ih =>
    obtain ⟨rl, mtl, ruc, wc, cc, ren, miw, mih, mic⟩ := opt
    cases hx : extract ⟨rl, mtl, ruc, wc, cc, ren, miw, mih, mic⟩ with
    | none =>
      rw [descriptionPassCount, hx]
      simp
    | some cleaned =>
      rw [descriptionPassCount, hx]
      by_cases hlen : (goLen cleaned : Int) < rl
      · cases ruc with
        | true =>
          have h2 : enabledCount ⟨rl, mtl, false, wc, cc, ren, miw, mih, mic⟩ < n := by
            simp [enabledCount] at hn ⊢
            split_ifs at hn ⊢ <;> omega
          have h3 := ih _ h2 ⟨rl, mtl, false, wc, cc, ren, miw, mih, mic⟩ rfl
          simp [hlen]
          omega
        | false =>
          cases wc with
          | true =>
            have h2 : enabledCount ⟨rl, mtl, false, false, cc, ren, miw, mih, mic⟩ < n := by
              simp [enabledCount] at hn ⊢
              split_ifs at hn ⊢ <;> omega
            have h3 := ih _ h2 ⟨rl, mtl, false, false, cc, ren, miw, mih, mic⟩ rfl
            simp [hlen]
            omega
          | false =>
            cases cc with
            | true =>
              have h2 : enabledCount ⟨rl, mtl, false, false, false, ren, miw, mih, mic⟩ < n := by
                simp [enabledCount] at hn ⊢
                omega
              have h3 := ih _ h2 ⟨rl, mtl, false, false, false, ren, miw, mih, mic⟩ rfl
              simp [hlen]
              omega
            | false =>
              simp [hlen]
      · simp [hlen]

theorem descriptionConfigs_self_mem (extract : OptionR → Option String)
    (opt : OptionR) : opt ∈ descriptionConfigs extract opt := by
  rw [descriptionConfigs]
  cases hx : extract opt with
  | none => simp
  | some cleaned =>
    by_cases hlen : (goLen cleaned : Int) < opt.retryLength
    · simp [hlen]
      split_ifs <;> simp
    · simp [hlen]

/-- C2: the retry controller accepts a successful pass of length at least
`RetryLength`; a shorter successful pass retries with exactly one more
option disabled in the order RemoveUnlikelyCandidates, WeightClasses,
CleanConditionally; with all three disabled the result is accepted
regardless of length; at most 4 passes happen for any document and any
starting options (the recursion is total by construction); and a first pass
under `RetryLength` from the default options visits at least two distinct
configurations. -/
theorem retryController_c2 (extract : OptionR → Option String) (opt : OptionR) :
    descriptionPassCount extract opt ≤ 4
    ∧ (∀ t, extract opt = some t → (goLen t : Int) ≥ opt.retryLength →
        description extract opt = t)
    ∧ (∀ t, extract opt = some t → (goLen t : Int) < opt.retryLength →
        opt.removeUnlikelyCandidates = true →
        description extract opt =
          description extract { opt with removeUnlikelyCandidates := false })
    ∧ (∀ t, extract opt = some t → (goLen t : Int) < opt.retryLength →
        opt.removeUnlikelyCandidates = false → opt.weightClasses = true →
        description extract opt =
          description extract { opt with weightClasses := false })
    ∧ (∀ t, extract opt = some t → (goLen t : Int) < opt.retryLength →
        opt.removeUnlikelyCandidates = false → opt.weightClasses = false →
        opt.cleanConditionally = true →
        description extract opt =
          description extract { opt with cleanConditionally := false })
    ∧ (∀ t, extract opt = some t → (goLen t : Int) < opt.retryLength →
        opt.removeUnlikelyCandidates = false → opt.weightClasses = false →
        opt.cleanConditionally = false →
        description extract opt = t)
    ∧ (∀ t, extract NewOption = some t → (goLen t : Int) < NewOption.retryLength →
        NewOption ∈ descriptionConfigs extract NewOption ∧
        { NewOption with removeUnlikelyCandidates := false } ∈
          descriptionConfigs extract NewOption ∧
        NewOption ≠ { NewOption with removeUnlikelyCandidates := false }) := by
  refine ⟨?_, ?_, ?_, ?_, ?_, ?_, ?_⟩
  · have h1 := descriptionPassCount_le extract opt
    have h2 := enabledCount_le_three opt
    omega
  · intro t hx hge
    rw [description, hx]
    have : ¬ ((goLen t : Int) < opt.retryLength) := by omega
    simp [this]
  · intro t hx hlt hruc
    rw [description, hx]
    simp [hlt, hruc]
  · intro t hx hlt hruc hwc
    rw [description, hx]
    simp [hlt, hruc, hwc]
  · intro t hx hlt hruc hwc hcc
    rw [description, hx]
    simp [hlt, hruc, hwc, hcc]
  · intro t hx hlt hruc hwc hcc
    rw [description, hx]
    simp [hlt, hruc, hwc, hcc]
  · intro t hx hlt
    have hcfg : descriptionConfigs extract NewOption =
        NewOption :: descriptionConfigs extract
          { NewOption with removeUnlikelyCandidates := false } := by
      rw [descriptionConfigs, hx]
      have hruc : NewOption.removeUnlikelyCandidates = true := rfl
      simp [hlt, hruc]
    refine ⟨?_, ?_, ?_⟩
    · rw [hcfg]; exact List.mem_cons_self _ _
    · rw [hcfg]
      exact List.mem_cons_of_mem _ (descriptionConfigs_self_mem _ _)
    · intro hcontra
      have := congrArg OptionR.removeUnlikelyCandidates hcontra
      exact absurd this (by decide)

/-- Witness for C2: the constant extractor returning `""` from the default
options takes at most 4 passes, relaxes `RemoveUnlikelyCandidates` first,
and visits both the default configuration and the relaxed one. -/
theorem retryController_c2_witness :
    descriptionPassCount (fun _ => some "") NewOption ≤ 4
    ∧ description (fun _ => some "") NewOption =
        description (fun _ => some "")
          { NewOption with removeUnlikelyCandidates := false }
    ∧ NewOption ∈ descriptionConfigs (fun _ => some "") NewOption
    ∧ { NewOption with removeUnlikelyCandidates := false } ∈
        descriptionConfigs (fun _ => some "") NewOption := by
  have h := retryController_c2 (fun _ => some "") NewOption
  refine ⟨h.1, h.2.2.1 "" rfl (by decide) rfl, ?_, ?_⟩
  · exact (h.2.2.2.2.2.2 "" rfl (by decide)).1
  · exact (h.2.2.2.2.2.2 "" rfl (by decide)).2.1

/-- A control byte per net/url's `stringContainsCTLByte`. -/
def isCtlChar (c : Char) : Bool := c.val < 32 || c.val == 127

/-- Whether a character is a hexadecimal digit (net/url's `ishex`). -/
def isHexChar (c : Char) : Bool :=
  c.isDigit || ('a' ≤ c && c ≤ 'f') || ('A' ≤ c && c ≤ 'F')

/-- Valid percent-escapes: every `%` is followed by two hex digits
(net/url's `unescape` error condition). -/
def validEscapes : List Char → Bool
  | [] => true
  | '%' :: a :: b :: rest => isHexChar a && isHexChar b && validEscapes rest
  | '%' :: _ => false
  | _ :: rest => validEscapes rest

/-- Split at the first occurrence of `c`: (prefix, remainder after `c`);
the whole list and `[]` when `c` is absent. -/
def splitAtFirst (c : Char) : List Char → List Char × List Char
  | [] => ([], [])
  | x :: xs =>
    if x = c then ([], xs)
    else
      let p := splitAtFirst c xs
      (x :: p.1, p.2)

/-- The characters whose escapes net/url's `Parse` validates: everything
except the query (the fragment, split off first, is validated too). -/
def escapeCheckedChars (l : List Char) : List Char :=
  let p := splitAtFirst '#' l
  (splitAtFirst '?' p.1).1 ++ p.2

/-- Model of net/url's `url.Parse` success: no control characters, no
leading `:` ("missing protocol scheme"), and valid percent-escapes outside
the query (host/port/userinfo corner cases are not modelled). -/
def goUrlParseOk (s : String) : Bool :=
  !(s.toList.any isCtlChar) &&
  (match s.toList with
   | ':' :: _ => false
   | _ => true) &&
  validEscapes (escapeCheckedChars s.toList)

/-- Model of net/url's `getScheme` scan: the accumulator holds the
characters consumed so far (reversed); a scheme must start with a letter,
continue with letters, digits, `+`, `-` or `.`, and end at a `:`. -/
def schemeChars (acc : List Char) : List Char → List Char
  | [] => []
  | c :: cs =>
    if c = ':' then (if acc.isEmpty then [] else acc.reverse)
    else if c.isAlpha then schemeChars (c :: acc) cs
    else if c.isDigit || c = '+' || c = '-' || c = '.' then
      (if acc.isEmpty then [] else schemeChars (c :: acc) cs)
    else []

/-- The (lowercased) scheme of a URL string, `""` when it has none;
`IsAbs()` is `schemeOf s ≠ ""`. -/
def schemeOf (s : String) : String := ⟨(schemeChars [] s.toList).map Char.toLower⟩

/-- `isValidURLStr`: the string parses and its scheme is http or https. -/
def isValidURLStr (s : String) : Bool :=
  goUrlParseOk s && (schemeOf s == "http" || schemeOf s == "https")

/-- The `Host` of a parsed `scheme://host/...` URL (as `absPath` uses it
for inputs starting with `/`): the segment after `//` up to the next `/`,
`?` or `#`; userinfo and port normalization are not modelled. -/
def hostOf (s : String) : String :=
  match (splitAtFirst ':' s.toList).2 with
  | '/' :: '/' :: r =>
    ⟨r.takeWhile (fun c => !(c == '/') && !(c == '?') && !(c == '#'))⟩
  | _ => ""

/-- `strings.LastIndex(s, "/")`: index of the last `/`, or −1 (byte index;
the model assumes ASCII URLs so character index equals byte index). -/
def lastSlashIndex (s : String) : Int :=
  match s.toList.reverse.findIdx? (fun c => c == '/') with
  | none => -1
  | some i => (s.toList.length : Int) - 1 - (i : Int)

/-- The success condition of the final `url.Parse(result)` in `absPath`'s
relative-join branch (inputs starting with `/` skip it). -/
def absPathJoinOk (inStr reqURLStr : String) : Bool :=
  match inStr.toList with
  | '/' :: _ => true
  | _ =>
    let sPos := lastSlashIndex reqURLStr
    goUrlParseOk (if sPos < 8 then reqURLStr ++ "/" ++ inStr
                  else (⟨reqURLStr.toList.take (sPos + 1).toNat⟩ : String) ++ inStr)

/-- `absPath(in, reqURLStr)`: empty input fails; unparsable input fails;
an absolute input is returned unchanged; then a request URL that does not
parse as http/https fails; `//...` inputs get the request scheme; `/...`
inputs get scheme and host; anything else is appended after the request
URL's last slash (or after a joining slash when the last slash is within
the first 8 bytes), failing if the joined result does not parse. -/
def absPath (inStr reqURLStr : String) : Except String String :=
  if trimSpace inStr = "" then .error "Empty input string for absPath"
  else if !goUrlParseOk inStr then .error "input parse error"
  else if schemeOf inStr ≠ "" then .ok inStr
  else if !goUrlParseOk reqURLStr then .error "request URL parse error"
  else if !isValidURLStr reqURLStr then .error "invalid scheme"
  else
    match inStr.toList with
    | '/' :: '/' :: _ => .ok (schemeOf reqURLStr ++ ":" ++ inStr)
    | '/' :: _ => .ok (schemeOf reqURLStr ++ "://" ++ hostOf reqURLStr ++ inStr)
    | _ =>
      let sPos := lastSlashIndex reqURLStr
      let result := if sPos < 8 then reqURLStr ++ "/" ++ inStr
                    else (⟨reqURLStr.toList.take (sPos + 1).toNat⟩ : String) ++ inStr
      if !goUrlParseOk result then .error "result parse error"
      else .ok result

/-- The `meta` pass of `author`: the loop variable `author` is overwritten
with the (possibly missing, then `""`) content of each meta named
`dc.creator` or `author`, breaking as soon as a content attribute is
present. -/
def metaScan (acc : String) : List HNode → String
  | [] => acc
  | m :: ms =>
    if attrOr m "name" "" = "dc.creator" then
      match attr m "content" with
      | some c => c
      | none => metaScan "" ms
    else if attrOr m "name" "" = "author" then
      match attr m "content" with
      | some c => c
      | none => metaScan "" ms
    else metaScan acc ms

/-- Whether an element's `class` attribute contains `cls` as a
space-separated token (the `span.author` selector). -/
def hasClassToken (n : HNode) (cls : String) : Bool :=
  (splitSegments ' ' (attrOr n "class" "").toList).any (fun t => t == cls.toList)

/-- The `span.author` pass of `author`: first span with nonempty raw text;
its trimmed text is taken (even when the trim is empty). -/
def spanAuthorScan : List HNode → String
  | [] => ""
  | s :: rest => if textOf s ≠ "" then trimSpace (textOf s) else spanAuthorScan rest

/-- The `a[rel=author]` pass of `author`: first anchor whose `rel` is
exactly `author`; its trimmed text is taken. -/
def relAuthorScan : List HNode → String
  | [] => ""
  | a :: rest =>
    if attrOr a "rel" "" = "author" then trimSpace (textOf a) else relAuthorScan rest

/-- `author(doc)`: the meta pass, then the `span.author` pass, then the
`a[rel=author]` pass, each consulted only when the previous produced `""`. -/
def author (doc : HNode) : String :=
  let a := metaScan "" (findTag "meta" doc)
  if a ≠ "" then a
  else
    let b := spanAuthorScan ((descendants doc).filter
      (fun n => tagName n == "span" && hasClassToken n "author"))
    if b ≠ "" then b
    else relAuthorScan (findTag "a" doc)

/-- Claim C9's author extraction, as stated: `dc.creator` metas take strict
priority over `author` metas regardless of document position. -/
def claimedAuthor (doc : HNode) : String :=
  match (findTag "meta" doc).findSome? (fun m =>
      if attrOr m "name" "" = "dc.creator" then attr m "content" else none) with
  | some c => c
  | none =>
    match (findTag "meta" doc).findSome? (fun m =>
        if attrOr m "name" "" = "author" then attr m "content" else none) with
    | some c => c
    | none =>
      let b := spanAuthorScan ((descendants doc).filter
        (fun n => tagName n == "span" && hasClassToken n "author"))
      if b ≠ "" then b
      else relAuthorScan (findTag "a" doc)

/-- The C9 amended author extraction: inside the meta pass there is no
priority between the two meta names — the first meta in document order
whose name is `dc.creator` or `author` and whose content attribute is
present wins; the later passes are as claimed. -/
def amendedAuthor (doc : HNode) : String :=
  let a := ((findTag "meta" doc).findSome? (fun m =>
      if attrOr m "name" "" = "dc.creator" ∨ attrOr m "name" "" = "author"
      then attr m "content" else none)).getD ""
  if a ≠ "" then a
  else
    let b := match ((descendants doc).filter
        (fun n => tagName n == "span" && hasClassToken n "author")).find?
        (fun s => !(textOf s == "")) with
      | some s => trimSpace (textOf s)
      | none => ""
    if b ≠ "" then b
    else
      match (findTag "a" doc).find? (fun a' => attrOr a' "rel" "" == "author") with
      | some a' => trimSpace (textOf a')
      | none => ""

/-- The C9 counterexample document: an `author` meta before a `dc.creator`
meta. -/
def c9Doc : HNode :=
  .elem "#document" []
    [.elem "head" []
      [.elem "meta" [("name", "author"), ("content", "A")] [],
       .elem "meta" [("name", "dc.creator"), ("content", "B")] []]]

theorem collectImages_length_le (opt : OptionR) :
    ∀ (results acc : List Image), (acc.length : Int) < max opt.maxImageCount 1 →
      ((collectImages opt results acc).length : Int) ≤ max opt.maxImageCount 1 := by
  intro results
  induction results with
  | nil =>
    intro acc h
    rw [collectImages]
    omega
  | cons r rest ih =>
    intro acc h
    rw [collectImages]
    by_cases ha : acceptsImage opt r = true
    · by_cases hfull : (((acc ++ [r]).length : Int)) ≥ opt.maxImageCount
      · simp only [ha, if_true, hfull]
        have hlen : (acc ++ [r]).length = acc.length + 1 := by simp
        rw [hlen]
        push_cast
        omega
      · simp only [ha, if_true, hfull, if_false]
        exact ih _ (by simp at hfull ⊢; omega)
    · simp only [ha, Bool.false_eq_true, if_false]
      by_cases hfull : ((acc.length : Int)) ≥ opt.maxImageCount
      · rw [if_pos hfull]
        omega
      · rw [if_neg hfull]
        exact ih _ h

theorem collectImages_mem (opt : OptionR) :
    ∀ (results acc : List Image) (x : Image), x ∈ collectImages opt results acc →
      x ∈ acc ∨ (acceptsImage opt x = true ∧ x ∈ results) := by
  intro results
  induction results with
  | nil =>
    intro acc x hx
    rw [collectImages] at hx
    exact Or.inl hx
  | cons r rest ih =>
    intro acc x hx
    rw [collectImages] at hx
    by_cases ha : acceptsImage opt r = true
    · simp only [ha, if_true] at hx
      by_cases hfull : (((acc ++ [r]).length : Int)) ≥ opt.maxImageCount
      · rw [if_pos hfull] at hx
        rcases List.mem_append.mp hx with h1 | h1
        · exact Or.inl h1
        · simp only [List.mem_singleton] at h1
          subst h1
          exact Or.inr ⟨ha, List.mem_cons_self _ _⟩
      · rw [if_neg hfull] at hx
        rcases ih _ x hx with h1 | h1
        · rcases List.mem_append.mp h1 with h2 | h2
          · exact Or.inl h2
          · simp only [List.mem_singleton] at h2
            subst h2
            exact Or.inr ⟨ha, List.mem_cons_self _ _⟩
        · exact Or.inr ⟨h1.1, List.mem_cons_of_mem _ h1.2⟩
    · simp only [ha, Bool.false_eq_true, if_false] at hx
      by_cases hfull : ((acc.length : Int)) ≥ opt.maxImageCount
      · rw [if_pos hfull] at hx
        exact Or.inl hx
      · rw [if_neg hfull] at hx
        rcases ih _ x hx with h1 | h1
        · exact Or.inl h1
        · exact Or.inr ⟨h1.1, List.mem_cons_of_mem _ h1.2⟩

theorem collectImages_length_full (opt : OptionR) :
    ∀ (results acc : List Image), (∀ r ∈ results, acceptsImage opt r = true) →
      (acc.length : Int) < opt.maxImageCount →
      ((acc.length : Int) + results.length ≥ opt.maxImageCount) →
      ((collectImages opt results acc).length : Int) = opt.maxImageCount := by
  intro results
  induction results with
  | nil =>
    intro acc _ h1 h2
    simp at h2
    omega
  | cons r rest ih =>
    intro acc hall h1 h2
    rw [collectImages]
    have ha : acceptsImage opt r = true := hall r (List.mem_cons_self _ _)
    simp only [ha, if_true]
    by_cases hfull : (((acc ++ [r]).length : Int)) ≥ opt.maxImageCount
    · rw [if_pos hfull]
      simp at hfull ⊢
      omega
    · rw [if_neg hfull]
      have h3 := ih (acc ++ [r]) (fun x hx => hall x (List.mem_cons_of_mem _ hx))
      simp at hfull h2 ⊢
      apply h3
      · simp
        omega
      · simp
        omega

/-- C6 amended: the collector's result never exceeds
`max(MaxImageCount, 1)` entries (at most `MaxImageCount` whenever
`MaxImageCount ≥ 1`); every returned image passed the acceptance test, so
it has a non-nil size meeting both minimums; a failed probe produces a nil
size and is therefore never returned; and with every arriving result
acceptable, `MaxImageCount = 3` and 5 arrivals, exactly 3 are returned.
An unresolved probe (no error, no size), however, carries the declared
attribute dimensions and is returned whenever those pass the minimums. -/
theorem imageCollector_amended_c6 (opt : OptionR) (results : List Image) :
    ((collectImages opt results []).length : Int) ≤ max opt.maxImageCount 1
    ∧ (∀ img ∈ collectImages opt results [],
        acceptsImage opt img = true ∧ img.size ≠ none)
    ∧ (∀ (src : String) (w h : Int), w = 0 ∨ h = 0 →
        (checkImageSize src w h (Except.error ())).size = none)
    ∧ ((∀ r ∈ results, acceptsImage opt r = true) → opt.maxImageCount = 3 →
        results.length = 5 → ((collectImages opt results []).length : Int) = 3) := by
  refine ⟨?_, ?_, ?_, ?_⟩
  · exact collectImages_length_le opt results []
      (by simp only [List.length_nil, Nat.cast_zero]; omega)
  · intro img hmem
    rcases collectImages_mem opt results [] img hmem with h | h
    · simp at h
    · refine ⟨h.1, ?_⟩
      intro hnone
      have := h.1
      simp [acceptsImage, hnone] at this
  · intro src w h hwh
    simp only [checkImageSize]
    rw [if_pos hwh]
  · intro hall hmax hlen
    have h3 := collectImages_length_full opt results [] hall
      (by rw [hmax]; norm_num) (by rw [hmax, hlen]; norm_num)
    omega

/-- Witness for C6's amended theorem: five identical acceptable results
under the default options yield exactly 3 images. -/
theorem imageCollector_amended_c6_witness :
    ((collectImages NewOption
      (List.replicate 5 { url := "u", size := some ⟨300, 200⟩ }) []).length : Int)
      = 3 := by
  apply (imageCollector_amended_c6 NewOption
    (List.replicate 5 { url := "u", size := some ⟨300, 200⟩ })).2.2.2
  · intro r hr
    rw [List.eq_of_mem_replicate hr]
    decide
  · rfl
  · simp

/-- C6 counterexample: an unresolved probe (`err == nil`, `size == nil`)
for an `img` with declared `width="500"` and no height is returned by the
collector when `MinImageHeight` is 0, contradicting the claim that an
unresolved probe is never included. -/
theorem imageCollector_counterexample_c6 :
    (checkImageSize "u" 500 0 (Except.ok none)).size = some ⟨500, 0⟩
    ∧ collectImages c6Opt [checkImageSize "u" 500 0 (Except.ok none)] [] =
        [{ url := "u", size := some ⟨500, 0⟩ }] := by
  constructor <;> decide

/-- C10: when both declared dimensions are nonzero no probe is made — the
result does not depend on the probe and equals the `uint32`-wrapped
declared values; `uint32(-1) = 4294967295`; and an image declaring
`width="-1" height="-1"` passes the default minimum-size filter and is
returned by the collector. -/
theorem checkImageSize_wrap_c10 (src : String) (w h : Int)
    (probe : Except Unit (Option ImageSize)) (hw : w ≠ 0) (hh : h ≠ 0) :
    checkImageSize src w h probe =
      { url := src, size := some ⟨uint32Of w, uint32Of h⟩ }
    ∧ uint32Of (-1) = 4294967295
    ∧ acceptsImage NewOption (checkImageSize "u" (-1) (-1) probe) = true
    ∧ collectImages NewOption [checkImageSize "u" (-1) (-1) probe] [] =
        [{ url := "u", size := some ⟨4294967295, 4294967295⟩ }] := by
  have hmain : ∀ (src' : String) (w' h' : Int), w' ≠ 0 → h' ≠ 0 →
      checkImageSize src' w' h' probe =
        { url := src', size := some ⟨uint32Of w', uint32Of h'⟩ } := by
    intro src' w' h' hw' hh'
    simp only [checkImageSize]
    rw [if_neg (by tauto)]
  have he : checkImageSize "u" (-1) (-1) probe =
      { url := "u", size := some ⟨4294967295, 4294967295⟩ } := by
    rw [hmain "u" (-1) (-1) (by decide) (by decide)]
    decide
  refine ⟨hmain src w h hw hh, by decide, ?_, ?_⟩
  · rw [he]
    decide
  · rw [he]
    decide

/-- Witness for C10: concrete instance with `width=-1`, `height=-1` and a
failing probe (which is never consulted). -/
theorem checkImageSize_wrap_c10_witness :
    (-1 : Int) ≠ 0
    ∧ checkImageSize "u" (-1) (-1) (Except.error ()) =
        { url := "u", size := some ⟨uint32Of (-1), uint32Of (-1)⟩ }
    ∧ uint32Of (-1) = 4294967295 := by
  refine ⟨by decide, ?_, by decide⟩
  exact (checkImageSize_wrap_c10 "u" (-1) (-1) (Except.error ())
    (by decide) (by decide)).1

/-- C7 counterexample: an absolute input is returned unchanged even when
the request URL's scheme is neither http nor https, where the claim says
`absPath` must fail. -/
theorem absPath_counterexample_c7 :
    isValidURLStr "ftp://b" = false
    ∧ absPath "http://a.com/x" "ftp://b" = Except.ok "http://a.com/x" := by
  exact ⟨by decide, rfl⟩

/-- C7 amended: `absPath` fails exactly when the input is empty or
unparsable, or when the input is not absolute and either the request URL is
not a parsable http/https URL or the relative join produces an unparsable
result; an absolute input succeeds regardless of the request URL. -/
theorem absPath_errors_amended_c7 (inStr reqURLStr : String) :
    (absPath inStr reqURLStr).isOk = true ↔
      (trimSpace inStr ≠ "" ∧ goUrlParseOk inStr = true ∧
        (schemeOf inStr ≠ "" ∨
          (isValidURLStr reqURLStr = true ∧ absPathJoinOk inStr reqURLStr = true))) := by
  unfold absPath
  by_cases h1 : trimSpace inStr = ""
  · simp [h1, Except.isOk, Except.toBool]
  · by_cases h2 : goUrlParseOk inStr = true
    · by_cases h3 : schemeOf inStr ≠ ""
      · simp [h1, h2, h3, Except.isOk, Except.toBool]
      · by_cases h4 : goUrlParseOk reqURLStr = true
        · by_cases h5 : isValidURLStr reqURLStr = true
          · rw [if_neg h1, if_neg (by simp [h2]), if_neg h3,
              if_neg (by simp [h4]), if_neg (by simp [h5])]
            unfold absPathJoinOk
            cases hl : inStr.toList with
            | nil =>
              exfalso
              apply h1
              have he : inStr = "" := by
                cases inStr with
                | mk data =>
                  simp only [String.toList] at hl
                  simp [hl]
              rw [he]
              rfl
            | cons c cs =>
              by_cases hc : c = '/'
              · subst hc
                cases cs with
                | nil =>
                  simp [h1, h2, h3, h5, Except.isOk, Except.toBool]
                | cons c2 cs2 =>
                  by_cases hc2 : c2 = '/'
                  · subst hc2
                    simp [h1, h2, h3, h5, Except.isOk, Except.toBool]
                  · by_cases h6 : goUrlParseOk
                        (if lastSlashIndex reqURLStr < 8 then
                          reqURLStr ++ "/" ++ inStr
                         else (⟨reqURLStr.toList.take
                           ((lastSlashIndex reqURLStr) + 1).toNat⟩ : String) ++ inStr) = true
                    · simp only [String.toList] at h6
                      simp [h1, h2, h3, h5, h6, hc2, Except.isOk, Except.toBool]
                    · simp only [String.toList] at h6
                      simp [h1, h2, h3, h5, h6, hc2, Except.isOk, Except.toBool]
              · by_cases h6 : goUrlParseOk
                    (if lastSlashIndex reqURLStr < 8 then
                      reqURLStr ++ "/" ++ inStr
                     else (⟨reqURLStr.toList.take
                       ((lastSlashIndex reqURLStr) + 1).toNat⟩ : String) ++ inStr) = true
                · simp only [String.toList] at h6
                  simp [h1, h2, h3, h5, h6, hc, Except.isOk, Except.toBool]
                · simp only [String.toList] at h6
                  simp [h1, h2, h3, h5, h6, hc, Except.isOk, Except.toBool]
          · have h5w : isValidURLStr reqURLStr = false :=
              Bool.not_eq_true _ |>.mp h5
            rw [if_neg h1, if_neg (by simp [h2]), if_neg h3, if_neg (by simp [h4]),
              if_pos (by simp [h5w])]
            simp [h1, h2, h3, h5w, Except.isOk, Except.toBool]
        · have h5 : isValidURLStr reqURLStr = false := by
            unfold isValidURLStr
            simp [h4]
          rw [if_neg h1, if_neg (by simp [h2]), if_neg h3, if_pos (by simp [h4])]
          simp [h1, h2, h3, h5, Except.isOk, Except.toBool]
    · simp [h1, h2, Except.isOk, Except.toBool]


/-- Witness for C7's amended theorem at the library's own test vector. -/
theorem absPath_errors_amended_c7_witness :
    trimSpace "img/b.jpg" ≠ ""
    ∧ (absPath "img/b.jpg" "http://www.kakao.com").isOk = true
    ∧ absPath "img/b.jpg" "http://www.kakao.com" =
        Except.ok "http://www.kakao.com/img/b.jpg" := by
  refine ⟨by decide, ?_, by rfl⟩
  rw [absPath_errors_amended_c7]
  exact ⟨by decide, by decide, Or.inr ⟨by decide, by decide⟩⟩

theorem schemeChars_head_alpha (c : Char) (cs : List Char)
    (h : schemeChars [] (c :: cs) ≠ []) : c.isAlpha = true := by
  by_cases h1 : c = ':'
  · exfalso
    apply h
    rw [schemeChars]
    simp [h1]
  · by_cases h2 : c.isAlpha
    · exact h2
    · exfalso
      apply h
      rw [schemeChars]
      simp only [h1, if_false, h2]
      split_ifs <;> simp_all [schemeChars]

theorem alpha_not_whitespace (c : Char) (h : c.isAlpha = true) :
    c.isWhitespace = false := by
  cases hcw : c.isWhitespace
  · rfl
  · exfalso
    simp [Char.isWhitespace] at hcw
    rcases hcw with ((h1 | h1) | h1) | h1 <;> subst h1 <;> exact absurd h (by decide)

theorem trimSpace_ne_empty (inStr : String) (c : Char) (cs : List Char)
    (hl : inStr.toList = c :: cs) (hc : c.isWhitespace = false) :
    trimSpace inStr ≠ "" := by
  intro hEq
  unfold trimSpace at hEq
  rw [hl] at hEq
  have hdata := congrArg String.data hEq
  simp only [List.dropWhile_cons, hc, Bool.false_eq_true, if_false] at hdata
  have hnil : ((c :: cs).reverse.dropWhile Char.isWhitespace) = [] := by
    have := congrArg List.reverse hdata
    simpa using this
  rw [List.dropWhile_eq_nil_iff] at hnil
  have hcmem : c ∈ (c :: cs).reverse := List.mem_reverse.mpr (List.mem_cons_self _ _)
  have := hnil c hcmem
  rw [hc] at this
  exact Bool.noConfusion this

/-- C8: an input that parses as a URL with a scheme is returned unchanged
with no error, for every request URL; hence `absPath` is idempotent on its
own successful output for absolute inputs. -/
theorem absPath_absolute_c8 (inStr : String) (hp : goUrlParseOk inStr = true)
    (hs : schemeOf inStr ≠ "") :
    ∀ reqURLStr, absPath inStr reqURLStr = Except.ok inStr := by
  intro reqURLStr
  have hex : ∃ c cs, inStr.toList = c :: cs ∧ c.isAlpha = true := by
    cases hl0 : inStr.toList with
    | nil =>
      exfalso
      apply hs
      unfold schemeOf
      rw [hl0]
      rfl
    | cons c cs =>
      refine ⟨c, cs, rfl, ?_⟩
      apply schemeChars_head_alpha c cs
      intro hnil
      apply hs
      unfold schemeOf
      rw [hl0, hnil]
      rfl
  obtain ⟨c, cs, hl, hc⟩ := hex
  have htrim : trimSpace inStr ≠ "" :=
    trimSpace_ne_empty inStr c cs hl (alpha_not_whitespace c hc)
  unfold absPath
  rw [if_neg htrim, if_neg (by simp [hp]), if_pos hs]

/-- Witness for C8: a concrete absolute URL is returned unchanged, even
against a non-http request URL, and re-applying `absPath` to the output is
the identity. -/
theorem absPath_absolute_c8_witness :
    goUrlParseOk "http://a.com/img.png" = true
    ∧ schemeOf "http://a.com/img.png" ≠ ""
    ∧ absPath "http://a.com/img.png" "https://b.org" =
        Except.ok "http://a.com/img.png"
    ∧ absPath "http://a.com/img.png" "ftp://b" = Except.ok "http://a.com/img.png" := by
  refine ⟨by decide, by decide, ?_, ?_⟩
  · exact absPath_absolute_c8 _ (by decide) (by decide) _
  · exact absPath_absolute_c8 _ (by decide) (by decide) _


theorem metaScan_eq (ms : List HNode) :
    metaScan "" ms = ((ms.findSome? (fun m =>
      if attrOr m "name" "" = "dc.creator" ∨ attrOr m "name" "" = "author"
      then attr m "content" else none)).getD "") := by
  induction ms with
  | nil => rfl
  | cons m ms ih =>
    rw [metaScan]
    by_cases h1 : attrOr m "name" "" = "dc.creator"
    · cases hc : attr m "content" with
      | none => simp [h1, hc, ih, List.findSome?_cons]
      | some c => simp [h1, hc, List.findSome?_cons]
    · by_cases h2 : attrOr m "name" "" = "author"
      · cases hc : attr m "content" with
        | none => simp [h1, h2, hc, ih, List.findSome?_cons]
        | some c => simp [h1, h2, hc, List.findSome?_cons]
      · simp [h1, h2, ih, List.findSome?_cons]

theorem spanAuthorScan_eq (l : List HNode) :
    spanAuthorScan l = (match l.find? (fun s => !(textOf s == "")) with
      | some s => trimSpace (textOf s)
      | none => "") := by
  induction l with
  | nil => rfl
  | cons s rest ih =>
    rw [spanAuthorScan]
    by_cases h : textOf s ≠ ""
    · have hb : (!(textOf s == "")) = true := by simp [h]
      simp [h, hb, List.find?]
    · have h' : textOf s = "" := not_ne_iff.mp h
      have hb : (!(textOf s == "")) = false := by simp [h']
      simp [h, hb, ih, List.find?]

theorem relAuthorScan_eq (l : List HNode) :
    relAuthorScan l = (match l.find? (fun a' => attrOr a' "rel" "" == "author") with
      | some a' => trimSpace (textOf a')
      | none => "") := by
  induction l with
  | nil => rfl
  | cons a rest ih =>
    rw [relAuthorScan]
    by_cases h : attrOr a "rel" "" = "author"
    · have hb : (attrOr a "rel" "" == "author") = true := by simp [h]
      simp [h, hb, List.find?]
    · have hb : (attrOr a "rel" "" == "author") = false := by simp [h]
      simp [h, hb, ih, List.find?]

/-- C9 amended: within the meta pass there is no priority between
`dc.creator` and `author` — the first meta in document order whose name is
either of the two and whose `content` attribute is present wins (so an
earlier `author` meta beats a later `dc.creator` meta); when no meta yields
a nonempty content, the first `span.author` with nonempty raw text is
consulted, then the first `a[rel=author]`. -/
theorem author_amended_c9 (doc : HNode) :
    author doc = amendedAuthor doc := by
  unfold author amendedAuthor
  rw [metaScan_eq, spanAuthorScan_eq, relAuthorScan_eq]

/-- C9 counterexample: with `<meta name="author" content="A">` before
`<meta name="dc.creator" content="B">`, the code returns "A" while the
claimed priority returns "B". -/
theorem author_counterexample_c9 :
    author c9Doc = "A" ∧ claimedAuthor c9Doc = "B" := by
  exact ⟨by decide, by decide⟩

end Readability
